import Mathlib

/-!
Verification of the complex-dynamics engine of `src/Main.cpp` (Celtic orbit
explorer).  The C++ code works on `std::complex<float>`; the shallow embedding
below uses exact rational arithmetic (`ℚ`) as the idealisation of real
arithmetic, so every definition is executable and every comparison decidable.
Magnitude comparisons of the source (`std::abs(z) > 2.0f`,
`std::abs(z - p) < 1e-4`) are embedded through their squares
(`normSq z > 4`, `normSq (z - p) < 1e-8`), which is equivalent for
non-negative magnitudes in exact arithmetic.
-/

namespace Celtic

/-- Embeds `std::complex<float>` (a real/imaginary pair). -/
structure Complex where
  re : ℚ
  im : ℚ
deriving DecidableEq

/-- Componentwise addition, `operator+` of `std::complex`. -/
def Complex.add (a b : Complex) : Complex := ⟨a.re + b.re, a.im + b.im⟩

/-- Componentwise subtraction, `operator-` of `std::complex`. -/
def Complex.sub (a b : Complex) : Complex := ⟨a.re - b.re, a.im - b.im⟩

/-- Squared magnitude; the source compares `std::abs z` with a bound `t ≥ 0`,
which is equivalent to comparing `normSq z` with `t^2`. -/
def Complex.normSq (a : Complex) : ℚ := a.re * a.re + a.im * a.im

/-- Embeds `sf::Vector2f` (the pan offset). -/
structure Vec2 where
  x : ℚ
  y : ℚ
deriving DecidableEq

/-- Squared period-match tolerance: the source tolerance is `1e-4`. -/
def tolSq : ℚ := 1 / 100000000

/-- Embeds `screenToComplex` (src/Main.cpp lines 22-27). -/
def screenToComplex (x y : ℚ) (zoom : ℚ) (offset : Vec2) (width height : ℚ) :
    Complex :=
  ⟨(x + offset.x - width / 2) / zoom, (y + offset.y - height / 2) / zoom⟩

/-- The mapping as the spec states it (§4.1):
`re = (gx + offset.x - W/2) / zoom`, `im = (gy + offset.y - H/2) / zoom`.
Second definition for the refinement comparison of claim C7. -/
def toComplexSpec (gx gy zoom : ℚ) (offset : Vec2) (W H : ℚ) : Complex :=
  ⟨(gx + offset.x - W / 2) / zoom, (gy + offset.y - H / 2) / zoom⟩

/-- The inverse affine transform the program uses to place complex points on
screen (src/Main.cpp lines 258-259 and 290-291):
`x = re*zoom + W/2 - offset.x`, `y = im*zoom + H/2 - offset.y`. -/
def complexToScreen (p : Complex) (zoom : ℚ) (offset : Vec2) (W H : ℚ) :
    Vec2 :=
  ⟨p.re * zoom + W / 2 - offset.x, p.im * zoom + H / 2 - offset.y⟩

/-- Embeds the `MouseWheelScrolled` offset update (src/Main.cpp lines
131-147): `before` is computed at the old zoom, `after` at the already
updated zoom, and the offset is incremented by `(after - before) * newZoom`
componentwise. -/
def wheelZoomOffset (mx my : ℚ) (oldZoom newZoom : ℚ) (offset : Vec2)
    (W H : ℚ) : Vec2 :=
  let beforeZoom := screenToComplex mx my oldZoom offset W H
  let afterZoom := screenToComplex mx my newZoom offset W H
  ⟨offset.x + (afterZoom.re - beforeZoom.re) * newZoom,
   offset.y + (afterZoom.im - beforeZoom.im) * newZoom⟩

/-- Embeds `formula1` (src/Main.cpp lines 30-35). -/
def formula1 (z c : Complex) : Complex :=
  let re2 := z.re * z.re - z.im * z.im
  let im2 := 2 * z.re * z.im
  Complex.add ⟨|re2|, im2⟩ c

/-- Embeds `formula2` (src/Main.cpp lines 36-41). -/
def formula2 (z c : Complex) : Complex :=
  let re2 := z.re * z.re - z.im * z.im
  let im2 := 2 * z.re * z.im
  Complex.add ⟨|re2|, |im2|⟩ c

/-- Embeds `formula3` (src/Main.cpp lines 42-47). -/
def formula3 (z c : Complex) : Complex :=
  let re2 := z.re * z.re - z.im * z.im
  let im2 := 2 * z.re * z.im
  Complex.add ⟨re2, -im2⟩ c

/-- Embeds `formula4` (src/Main.cpp lines 48-53). -/
def formula4 (z c : Complex) : Complex :=
  let rePart := z.re * |z.re| + z.im * z.im
  let imPart := 2 * z.re * z.im
  Complex.add ⟨|rePart|, imPart⟩ c

/-- Embeds the `formulas` vector (src/Main.cpp lines 71-74), indexed by the
0-based `formulaIndex` (keyboard keys 1-4 select indices 0-3).  Out-of-range
indices never occur in the program (the index is range-checked at the input
boundary); the catch-all branch is arbitrary. -/
def formulas : ℕ → Complex → Complex → Complex
  | 0 => formula1
  | 1 => formula2
  | 2 => formula3
  | 3 => formula4
  | _ => formula1

/-- The spec's complex square `z² = (re² − im², 2·re·im)` (§4.2), used to
state claim C3's refinement comparison. -/
def specSquare (z : Complex) : Complex :=
  ⟨z.re * z.re - z.im * z.im, 2 * z.re * z.im⟩

/-- The iteration map `z ↦ formulas[formulaIndex](z, cc)` used in both the
field loop (src/Main.cpp line 85) and the orbit loop (line 231). -/
def orbitMap (fi : ℕ) (c : Complex) : Complex → Complex :=
  fun z => formulas fi z c

/-- Near-duplicate scan of the orbit loop (src/Main.cpp lines 234-239): is
some previously visited point within distance 1e-4 of the new iterate?
Embedded through squared distances. -/
def nearMatch (zNew : Complex) (prev : List Complex) : Bool :=
  prev.any fun p => decide (Complex.normSq (Complex.sub zNew p) < tolSq)

/-- Terminal classification of an orbit trace (spec §4.4).  The step index
is the 0-based value of the loop counter `period` at which the loop
stopped. -/
inductive OrbitClass where
  | Escaped : ℕ → OrbitClass
  | PeriodFound : ℕ → OrbitClass
  | Exhausted : OrbitClass
deriving DecidableEq

/-- An orbit trace: the vector of visited points plus the terminal
classification. -/
structure OrbitResult where
  visited : List Complex
  cls : OrbitClass
deriving DecidableEq

/-- Fuel-indexed embedding of the orbit loop (src/Main.cpp lines 226-241):
each pass applies the formula, appends the iterate, scans all previous
points for a near-duplicate (stop: `PeriodFound`), else tests escape
(stop: `Escaped`); running out of fuel is `Exhausted`.  The classification
labels are the spec's state machine; the stop conditions, their order and
the step counter follow the source loop. -/
def orbitAux (f : Complex → Complex) :
    ℕ → ℕ → Complex → List Complex → OrbitResult
  | 0, _, _, acc => ⟨acc, OrbitClass.Exhausted⟩
  | fuel + 1, step, z, acc =>
    if nearMatch (f z) acc then ⟨acc ++ [f z], OrbitClass.PeriodFound step⟩
    else if 4 < Complex.normSq (f z) then ⟨acc ++ [f z], OrbitClass.Escaped step⟩
    else orbitAux f fuel (step + 1) (f z) (acc ++ [f z])

/-- The orbit/period detector `traceOrbit` (spec §4.4, src/Main.cpp lines
216-244): start at the seed with step counter 0 and an empty visited
list. -/
def traceOrbit (seed c : Complex) (fi maxSteps : ℕ) : OrbitResult :=
  orbitAux (orbitMap fi c) maxSteps 0 seed []

/-- The bare integer the source stores (`mousePeriod = period`,
src/Main.cpp line 242): the final value of the loop counter, mirroring the
loop with its combined stop test `found || abs z > 2`. -/
def periodAux (f : Complex → Complex) : ℕ → ℕ → Complex → List Complex → ℕ
  | 0, step, _, _ => step
  | fuel + 1, step, z, acc =>
    if nearMatch (f z) acc ∨ 4 < Complex.normSq (f z) then step
    else periodAux f fuel (step + 1) (f z) (acc ++ [f z])

/-- The single integer output of the orbit detector (src/Main.cpp line
242). -/
def mousePeriod (seed c : Complex) (fi maxSteps : ℕ) : ℕ :=
  periodAux (orbitMap fi c) maxSteps 0 seed []

/-- The orbit step bound `maxOrbit` of the source (src/Main.cpp line 227). -/
def maxOrbit : ℕ := 1000

/-- The i-th visited point of the orbit of `seed` under `f` (0-based): the
(i+1)-st iterate, because the loop applies `f` before recording. -/
def zpt (f : Complex → Complex) (seed : Complex) (i : ℕ) : Complex :=
  f^[i + 1] seed

/-- The first `n` visited points of the orbit. -/
def visitedUpTo (f : Complex → Complex) (seed : Complex) (n : ℕ) :
    List Complex :=
  (List.range n).map (zpt f seed)

/-- A near-recurrence at step `i`: some earlier visited point lies within
the period tolerance of the i-th visited point. -/
def matchAt (f : Complex → Complex) (seed : Complex) (i : ℕ) : Prop :=
  ∃ j < i, Complex.normSq (Complex.sub (zpt f seed i) (zpt f seed j)) < tolSq

/-- Escape at step `i`: the i-th visited point has magnitude above 2. -/
def escAt (f : Complex → Complex) (seed : Complex) (i : ℕ) : Prop :=
  4 < Complex.normSq (zpt f seed i)

/-- The loop stops at step `i` iff a near-recurrence or an escape occurs
there. -/
def stopAt (f : Complex → Complex) (seed : Complex) (i : ℕ) : Prop :=
  matchAt f seed i ∨ escAt f seed i

/-- Escape-time counter of `computeFractal` (src/Main.cpp lines 83-87): the
final value of `iter` in `for (; iter < maxIter; ++iter) { z = f(z); if
(abs(z) > 2) break; }`. -/
def escapeCount (f : Complex → Complex) : ℕ → Complex → ℕ
  | 0, _ => 0
  | n + 1, z =>
    if 4 < Complex.normSq (f z) then 0 else escapeCount f n (f z) + 1

/-- The per-cell complex parameter `c` (src/Main.cpp line 80). -/
def cellParam (zoom : ℚ) (offset : Vec2) (Wn Hn px py : ℕ) : Complex :=
  screenToComplex px py zoom offset Wn Hn

/-- The per-cell iteration seed `z` (src/Main.cpp line 81; the source
conditional `juliaMode ? c : c` picks `c` in both branches). -/
def cellSeed (zoom : ℚ) (offset : Vec2) (jm : Bool) (jc : Complex)
    (Wn Hn px py : ℕ) : Complex :=
  if jm then cellParam zoom offset Wn Hn px py
  else cellParam zoom offset Wn Hn px py

/-- The per-cell iteration constant `cc` (src/Main.cpp line 82). -/
def cellConst (zoom : ℚ) (offset : Vec2) (jm : Bool) (jc : Complex)
    (Wn Hn px py : ℕ) : Complex :=
  if jm then jc else cellParam zoom offset Wn Hn px py

/-- Escape iteration count of one grid cell (src/Main.cpp lines 80-87). -/
def fieldCell (zoom : ℚ) (offset : Vec2) (jm : Bool) (jc : Complex)
    (fi Wn Hn maxIter px py : ℕ) : ℕ :=
  escapeCount (orbitMap fi (cellConst zoom offset jm jc Wn Hn px py)) maxIter
    (cellSeed zoom offset jm jc Wn Hn px py)

/-- The escape-time field of `computeFractal` (src/Main.cpp lines 77-92):
the double loop over all grid cells as a `Wn × Hn` grid of per-cell
counts. -/
def computeField (zoom : ℚ) (offset : Vec2) (jm : Bool) (jc : Complex)
    (fi Wn Hn maxIter : ℕ) : List (List ℕ) :=
  (List.range Wn).map fun px =>
    (List.range Hn).map fun py =>
      fieldCell zoom offset jm jc fi Wn Hn maxIter px py

/-- C1: the zoom-recentering procedure of the source (offset +=
`(after − before) * newZoom`) does NOT leave the complex value under the
cursor unchanged.  At mouse (100, 0), viewport zoom 250, offset (0, 0),
window 800×600, one wheel-up step (zoom becomes 300): the point under the
cursor was (−6/5, −6/5) and after the update it is (−4/5, −4/5).  (The sign
is reversed: adding `(before − after) * newZoom` would keep it fixed.) -/
theorem zoomRecenter_moves_cursor_point :
    screenToComplex 100 0 250 ⟨0, 0⟩ 800 600 = ⟨-(6/5), -(6/5)⟩ ∧
    wheelZoomOffset 100 0 250 300 ⟨0, 0⟩ 800 600 = ⟨60, 60⟩ ∧
    screenToComplex 100 0 300 (wheelZoomOffset 100 0 250 300 ⟨0, 0⟩ 800 600)
        800 600 = ⟨-(4/5), -(4/5)⟩ ∧
    screenToComplex 100 0 300 (wheelZoomOffset 100 0 250 300 ⟨0, 0⟩ 800 600)
        800 600 ≠ screenToComplex 100 0 250 ⟨0, 0⟩ 800 600 := by
  refine ⟨?_, ?_, ?_, ?_⟩ <;>
    norm_num [screenToComplex, wheelZoomOffset, Complex.mk.injEq, Vec2.mk.injEq]

/-- C3: for each registry slot (0-based index `k − 1` for spec formula `k`,
`k = 1..4`), the registry's evaluation computes exactly the spec's
expression: with `z² = (re² − im², 2·re·im)`, formula 1 is
`(|re z²|, im z²) + c`, formula 2 is `(|re z²|, |im z²|) + c`, formula 3 is
`(re z², −im z²) + c`, and formula 4 is `(|re_part|, im_part) + c` with
`re_part = re z · |re z| + (im z)²`, `im_part = 2 · re z · im z`. -/
theorem formulas_match_spec (z c : Complex) :
    formulas 0 z c = Complex.add ⟨|(specSquare z).re|, (specSquare z).im⟩ c ∧
    formulas 1 z c = Complex.add ⟨|(specSquare z).re|, |(specSquare z).im|⟩ c ∧
    formulas 2 z c = Complex.add ⟨(specSquare z).re, -(specSquare z).im⟩ c ∧
    formulas 3 z c
      = Complex.add ⟨|z.re * |z.re| + z.im * z.im|, 2 * z.re * z.im⟩ c :=
  ⟨rfl, rfl, rfl, rfl⟩

/-- C7: for every grid coordinate and viewport with positive zoom,
`screenToComplex` returns exactly the spec's affine formula
`((gx + offset.x − W/2)/zoom, (gy + offset.y − H/2)/zoom)`, as a pure
function of its arguments. -/
theorem screenToComplex_affine_formula (gx gy zoom : ℚ) (offset : Vec2)
    (W H : ℚ) (h : 0 < zoom) :
    screenToComplex gx gy zoom offset W H = toComplexSpec gx gy zoom offset W H :=
  rfl

/-- Witness for C7 at a concrete viewport. -/
theorem screenToComplex_affine_formula_witness :
    (0 : ℚ) < 250 ∧
    screenToComplex 100 50 250 ⟨3, 4⟩ 800 600 = toComplexSpec 100 50 250 ⟨3, 4⟩ 800 600 :=
  ⟨by norm_num, screenToComplex_affine_formula 100 50 250 ⟨3, 4⟩ 800 600 (by norm_num)⟩

/-- C9: mapping a grid coordinate to the complex plane and back through the
program's inverse affine transform recovers the coordinate exactly (in the
exact-arithmetic model), for any viewport with positive zoom. -/
theorem screenToComplex_left_inverse (gx gy zoom : ℚ) (offset : Vec2)
    (W H : ℚ) (h : 0 < zoom) :
    complexToScreen (screenToComplex gx gy zoom offset W H) zoom offset W H
      = ⟨gx, gy⟩ := by
  have hz : zoom ≠ 0 := ne_of_gt h
  simp only [screenToComplex, complexToScreen, Vec2.mk.injEq]
  constructor <;> · rw [div_mul_cancel₀ _ hz]; ring

/-- Witness for C9 at a concrete grid coordinate and viewport. -/
theorem screenToComplex_left_inverse_witness :
    (0 : ℚ) < 250 ∧
    complexToScreen (screenToComplex 120 80 250 ⟨3, 4⟩ 800 600) 250 ⟨3, 4⟩ 800 600
      = ⟨120, 80⟩ :=
  ⟨by norm_num, screenToComplex_left_inverse 120 80 250 ⟨3, 4⟩ 800 600 (by norm_num)⟩

theorem getD_map_range {α : Type} (g : ℕ → α) (d : α) {i n : ℕ} (h : i < n) :
    ((List.range n).map g).getD i d = g i := by
  rw [List.getD_eq_getElem?_getD]
  simp [List.getElem?_map, List.getElem?_range, h]

theorem visitedUpTo_zero (f : Complex → Complex) (seed : Complex) :
    visitedUpTo f seed 0 = [] := rfl

theorem visitedUpTo_length (f : Complex → Complex) (seed : Complex) (n : ℕ) :
    (visitedUpTo f seed n).length = n := by
  simp [visitedUpTo]

theorem visitedUpTo_getD (f : Complex → Complex) (seed : Complex) {i n : ℕ}
    (h : i < n) (d : Complex) :
    (visitedUpTo f seed n).getD i d = zpt f seed i :=
  getD_map_range _ _ h

theorem visitedUpTo_succ (f : Complex → Complex) (seed : Complex) (n : ℕ) :
    visitedUpTo f seed (n + 1) = visitedUpTo f seed n ++ [zpt f seed n] := by
  simp [visitedUpTo, List.range_succ]

theorem nearMatch_visited_iff (f : Complex → Complex) (seed : Complex)
    (n : ℕ) :
    nearMatch (zpt f seed n) (visitedUpTo f seed n) = true ↔
      matchAt f seed n := by
  simp [nearMatch, visitedUpTo, matchAt, List.any_eq_true]

theorem orbitAux_succ_match (f : Complex → Complex) (fuel step : ℕ)
    (z : Complex) (acc : List Complex) (h : nearMatch (f z) acc = true) :
    orbitAux f (fuel + 1) step z acc
      = ⟨acc ++ [f z], OrbitClass.PeriodFound step⟩ := by
  simp [orbitAux, h]

theorem orbitAux_succ_esc (f : Complex → Complex) (fuel step : ℕ)
    (z : Complex) (acc : List Complex) (h1 : nearMatch (f z) acc = false)
    (h2 : 4 < Complex.normSq (f z)) :
    orbitAux f (fuel + 1) step z acc
      = ⟨acc ++ [f z], OrbitClass.Escaped step⟩ := by
  simp [orbitAux, h1, h2]

theorem orbitAux_succ_cont (f : Complex → Complex) (fuel step : ℕ)
    (z : Complex) (acc : List Complex) (h1 : nearMatch (f z) acc = false)
    (h2 : ¬ 4 < Complex.normSq (f z)) :
    orbitAux f (fuel + 1) step z acc
      = orbitAux f fuel (step + 1) (f z) (acc ++ [f z]) := by
  simp [orbitAux, h1, h2]

theorem orbitAux_spec (f : Complex → Complex) (seed : Complex) :
    ∀ fuel step : ℕ,
      (∃ k, step ≤ k ∧ k < step + fuel ∧
        (∀ i, step ≤ i → i < k → ¬ stopAt f seed i) ∧ stopAt f seed k ∧
        ((matchAt f seed k ∧
            orbitAux f fuel step (f^[step] seed) (visitedUpTo f seed step)
              = ⟨visitedUpTo f seed (k + 1), OrbitClass.PeriodFound k⟩) ∨
          (¬ matchAt f seed k ∧ escAt f seed k ∧
            orbitAux f fuel step (f^[step] seed) (visitedUpTo f seed step)
              = ⟨visitedUpTo f seed (k + 1), OrbitClass.Escaped k⟩))) ∨
      ((∀ i, step ≤ i → i < step + fuel → ¬ stopAt f seed i) ∧
        orbitAux f fuel step (f^[step] seed) (visitedUpTo f seed step)
          = ⟨visitedUpTo f seed (step + fuel), OrbitClass.Exhausted⟩) := by
  intro fuel
  induction fuel with
  | zero =>
    intro step
    right
    exact ⟨fun i h1 h2 => absurd h2 (by omega), by simp [orbitAux]⟩
  | succ n ih =>
    intro step
    have hzz : zpt f seed step = f (f^[step] seed) :=
      Function.iterate_succ_apply' f step seed
    by_cases hm : nearMatch (f (f^[step] seed)) (visitedUpTo f seed step) = true
    · have hmz : nearMatch (zpt f seed step) (visitedUpTo f seed step) = true := by
        rw [hzz]; exact hm
      have hmatch : matchAt f seed step := (nearMatch_visited_iff f seed step).1 hmz
      left
      refine ⟨step, Nat.le_refl step, by omega, ?_, Or.inl hmatch,
        Or.inl ⟨hmatch, ?_⟩⟩
      · intro i h1 h2; exact absurd h1 (by omega)
      · rw [orbitAux_succ_match f n step _ _ hm, visitedUpTo_succ, hzz]
    · have hm' : nearMatch (f (f^[step] seed)) (visitedUpTo f seed step) = false := by
        simpa using hm
      have hnmatch : ¬ matchAt f seed step := by
        intro hmm
        have hx := (nearMatch_visited_iff f seed step).2 hmm
        rw [hzz] at hx
        rw [hm'] at hx
        simp at hx
      by_cases he : 4 < Complex.normSq (f (f^[step] seed))
      · have hesc : escAt f seed step := by simpa [escAt, hzz] using he
        left
        refine ⟨step, Nat.le_refl step, by omega, ?_, Or.inr hesc,
          Or.inr ⟨hnmatch, hesc, ?_⟩⟩
        · intro i h1 h2; exact absurd h1 (by omega)
        · rw [orbitAux_succ_esc f n step _ _ hm' he, visitedUpTo_succ, hzz]
      · have hstep : orbitAux f (n + 1) step (f^[step] seed) (visitedUpTo f seed step)
            = orbitAux f n (step + 1) (f^[step + 1] seed)
                (visitedUpTo f seed (step + 1)) := by
          rw [orbitAux_succ_cont f n step _ _ hm' he, visitedUpTo_succ, hzz,
            Function.iterate_succ_apply' f step seed]
        have hns : ¬ stopAt f seed step := by
          intro hs
          cases hs with
          | inl hmm => exact hnmatch hmm
          | inr hee => exact he (by simpa [escAt, hzz] using hee)
        rcases ih (step + 1) with ⟨k, hk1, hk2, hpre, hstop, hcase⟩ | ⟨hall, heq⟩
        · left
          refine ⟨k, by omega, by omega, ?_, hstop, ?_⟩
          · intro i h1 h2
            rcases Nat.eq_or_lt_of_le h1 with heq1 | h1'
            · exact heq1 ▸ hns
            · exact hpre i h1' h2
          · rcases hcase with ⟨hmm, heq2⟩ | ⟨hnm2, hesc2, heq2⟩
            · exact Or.inl ⟨hmm, by rw [hstep]; exact heq2⟩
            · exact Or.inr ⟨hnm2, hesc2, by rw [hstep]; exact heq2⟩
        · right
          constructor
          · intro i h1 h2
            rcases Nat.eq_or_lt_of_le h1 with heq1 | h1'
            · exact heq1 ▸ hns
            · exact hall i h1' (by omega)
          · rw [hstep]
            have harith : step + 1 + n = step + (n + 1) := by omega
            rw [← harith]
            exact heq

theorem traceOrbit_spec (seed c : Complex) (fi maxSteps : ℕ) :
    (∃ k, k < maxSteps ∧
      (∀ i, i < k → ¬ stopAt (orbitMap fi c) seed i) ∧
      stopAt (orbitMap fi c) seed k ∧
      ((matchAt (orbitMap fi c) seed k ∧
          traceOrbit seed c fi maxSteps
            = ⟨visitedUpTo (orbitMap fi c) seed (k + 1),
                OrbitClass.PeriodFound k⟩) ∨
        (¬ matchAt (orbitMap fi c) seed k ∧ escAt (orbitMap fi c) seed k ∧
          traceOrbit seed c fi maxSteps
            = ⟨visitedUpTo (orbitMap fi c) seed (k + 1),
                OrbitClass.Escaped k⟩))) ∨
    ((∀ i, i < maxSteps → ¬ stopAt (orbitMap fi c) seed i) ∧
      traceOrbit seed c fi maxSteps
        = ⟨visitedUpTo (orbitMap fi c) seed maxSteps,
            OrbitClass.Exhausted⟩) := by
  have h := orbitAux_spec (orbitMap fi c) seed maxSteps 0
  simp only [Function.iterate_zero_apply, Nat.zero_add, visitedUpTo_zero] at h
  rcases h with ⟨k, _hk1, hk2, hpre, hstop, hcase⟩ | ⟨hall, heq⟩
  · exact Or.inl ⟨k, hk2, fun i hi => hpre i (Nat.zero_le i) hi, hstop, hcase⟩
  · exact Or.inr ⟨fun i hi => hall i (Nat.zero_le i) hi, heq⟩

theorem periodAux_eq (f : Complex → Complex) :
    ∀ fuel step : ℕ, ∀ z : Complex, ∀ acc : List Complex,
      periodAux f fuel step z acc =
        (match (orbitAux f fuel step z acc).cls with
          | OrbitClass.Escaped k => k
          | OrbitClass.PeriodFound k => k
          | OrbitClass.Exhausted => step + fuel) := by
  intro fuel
  induction fuel with
  | zero => intro step z acc; simp [periodAux, orbitAux]
  | succ n ih =>
    intro step z acc
    by_cases hm : nearMatch (f z) acc = true
    · simp [periodAux, orbitAux, hm]
    · have hm' : nearMatch (f z) acc = false := by simpa using hm
      by_cases he : 4 < Complex.normSq (f z)
      · simp [periodAux, orbitAux, hm', he]
      · rw [orbitAux_succ_cont f n step _ _ hm' he]
        have hL : periodAux f (n + 1) step z acc
            = periodAux f n (step + 1) (f z) (acc ++ [f z]) := by
          simp [periodAux, hm', he]
        rw [hL, ih (step + 1) (f z) (acc ++ [f z])]
        have harith : step + 1 + n = step + (n + 1) := by omega
        rw [harith]

theorem mousePeriod_eq (seed c : Complex) (fi maxSteps : ℕ) :
    mousePeriod seed c fi maxSteps =
      (match (traceOrbit seed c fi maxSteps).cls with
        | OrbitClass.Escaped k => k
        | OrbitClass.PeriodFound k => k
        | OrbitClass.Exhausted => maxSteps) := by
  have h := periodAux_eq (orbitMap fi c) maxSteps 0 seed []
  simpa [mousePeriod, traceOrbit] using h

theorem mousePeriod_le (seed c : Complex) (fi maxSteps : ℕ) :
    mousePeriod seed c fi maxSteps ≤ maxSteps := by
  rw [mousePeriod_eq]
  rcases traceOrbit_spec seed c fi maxSteps with
    ⟨k0, hk0, _, _, hcase⟩ | ⟨_, heq⟩
  · rcases hcase with ⟨_, heq⟩ | ⟨_, _, heq⟩ <;> rw [heq] <;> simp <;> omega
  · rw [heq]

theorem escapeCount_le (f : Complex → Complex) :
    ∀ n : ℕ, ∀ z : Complex, escapeCount f n z ≤ n := by
  intro n
  induction n with
  | zero => intro z; simp [escapeCount]
  | succ m ih =>
    intro z
    by_cases h : 4 < Complex.normSq (f z)
    · simp [escapeCount, h]
    · have h2 := ih (f z)
      simp only [escapeCount, if_neg h]
      omega

theorem escapeCount_eq_iff (f : Complex → Complex) :
    ∀ n : ℕ, ∀ z : Complex,
      escapeCount f n z = n ↔ ∀ k < n, Complex.normSq (f^[k + 1] z) ≤ 4 := by
  intro n
  induction n with
  | zero => intro z; simp [escapeCount]
  | succ m ih =>
    intro z
    by_cases h : 4 < Complex.normSq (f z)
    · simp only [escapeCount, if_pos h]
      constructor
      · intro h0; omega
      · intro hall
        have h1 := hall 0 (Nat.succ_pos m)
        simp at h1
        exact absurd h (by simpa using not_lt.2 h1)
    · simp only [escapeCount, if_neg h]
      rw [Nat.add_right_cancel_iff, ih (f z)]
      constructor
      · intro hall k hk
        cases k with
        | zero => simpa using not_lt.1 h
        | succ k' =>
          have hx := hall k' (by omega)
          rw [Function.iterate_succ_apply]
          exact hx
      · intro hall k hk
        have hx := hall (k + 1) (by omega)
        rw [Function.iterate_succ_apply] at hx
        exact hx

theorem computeField_getD (zoom : ℚ) (offset : Vec2) (jm : Bool)
    (jc : Complex) (fi Wn Hn maxIter px py : ℕ) (hx : px < Wn)
    (hy : py < Hn) :
    ((computeField zoom offset jm jc fi Wn Hn maxIter).getD px []).getD py 0
      = fieldCell zoom offset jm jc fi Wn Hn maxIter px py := by
  rw [computeField, getD_map_range _ _ hx, getD_map_range _ _ hy]

/-- C4: if `traceOrbit` stops with `PeriodFound` at step `k`, then some
previously visited point at an index `j < k` is within distance 1e-4 of the
k-th visited point, no earlier step had such a match (`k` is the first
recurrence index), and the visited sequence has length exactly `k + 1`. -/
theorem traceOrbit_periodFound_first_recurrence (seed c : Complex)
    (fi maxSteps k : ℕ)
    (h : (traceOrbit seed c fi maxSteps).cls = OrbitClass.PeriodFound k) :
    (traceOrbit seed c fi maxSteps).visited.length = k + 1 ∧
    (∃ j < k, Complex.normSq (Complex.sub
        ((traceOrbit seed c fi maxSteps).visited.getD k ⟨0, 0⟩)
        ((traceOrbit seed c fi maxSteps).visited.getD j ⟨0, 0⟩)) < tolSq) ∧
    (∀ i < k, ¬ ∃ j < i, Complex.normSq (Complex.sub
        ((traceOrbit seed c fi maxSteps).visited.getD i ⟨0, 0⟩)
        ((traceOrbit seed c fi maxSteps).visited.getD j ⟨0, 0⟩)) < tolSq) := by
  rcases traceOrbit_spec seed c fi maxSteps with
    ⟨k0, hk0, hpre, hstop, hcase⟩ | ⟨hall, heq⟩
  · rcases hcase with ⟨hmatch, heq⟩ | ⟨hnm, hesc, heq⟩
    · rw [heq] at h
      simp at h
      subst h
      have hv : (traceOrbit seed c fi maxSteps).visited
          = visitedUpTo (orbitMap fi c) seed (k0 + 1) := by rw [heq]
      refine ⟨?_, ?_, ?_⟩
      · rw [hv, visitedUpTo_length]
      · simp only [matchAt] at hmatch
        obtain ⟨j, hj, hlt⟩ := hmatch
        refine ⟨j, hj, ?_⟩
        rw [hv, visitedUpTo_getD _ _ (Nat.lt_succ_self k0),
          visitedUpTo_getD _ _ (show j < k0 + 1 by omega)]
        exact hlt
      · intro i hi hex
        apply hpre i hi
        refine Or.inl ?_
        simp only [matchAt]
        obtain ⟨j, hj, hlt⟩ := hex
        rw [hv, visitedUpTo_getD _ _ (show i < k0 + 1 by omega),
          visitedUpTo_getD _ _ (show j < k0 + 1 by omega)] at hlt
        exact ⟨j, hj, hlt⟩
    · rw [heq] at h
      simp at h
  · rw [heq] at h
    simp at h

/-- Witness for C4: the orbit of seed 0 with constant 0 under formula 1
finds its first recurrence at step 1. -/
theorem traceOrbit_periodFound_first_recurrence_witness :
    (traceOrbit ⟨0, 0⟩ ⟨0, 0⟩ 0 5).cls = OrbitClass.PeriodFound 1 ∧
    ((traceOrbit ⟨0, 0⟩ ⟨0, 0⟩ 0 5).visited.length = 1 + 1 ∧
      (∃ j < 1, Complex.normSq (Complex.sub
          ((traceOrbit ⟨0, 0⟩ ⟨0, 0⟩ 0 5).visited.getD 1 ⟨0, 0⟩)
          ((traceOrbit ⟨0, 0⟩ ⟨0, 0⟩ 0 5).visited.getD j ⟨0, 0⟩)) < tolSq) ∧
      (∀ i < 1, ¬ ∃ j < i, Complex.normSq (Complex.sub
          ((traceOrbit ⟨0, 0⟩ ⟨0, 0⟩ 0 5).visited.getD i ⟨0, 0⟩)
          ((traceOrbit ⟨0, 0⟩ ⟨0, 0⟩ 0 5).visited.getD j ⟨0, 0⟩)) < tolSq)) :=
  ⟨by norm_num [traceOrbit, orbitAux, orbitMap, formulas, formula1, nearMatch,
      Complex.add, Complex.sub, Complex.normSq, tolSq],
   traceOrbit_periodFound_first_recurrence ⟨0, 0⟩ ⟨0, 0⟩ 0 5 1
     (by norm_num [traceOrbit, orbitAux, orbitMap, formulas, formula1,
        nearMatch, Complex.add, Complex.sub, Complex.normSq, tolSq])⟩

/-- C5: `traceOrbit` terminates within `maxSteps` iterations (the visited
sequence has length at most `maxSteps`, hence in `[0, maxSteps]`), and its
classification is exactly one of `Escaped`, `PeriodFound`, `Exhausted`. -/
theorem traceOrbit_terminates_classified (seed c : Complex)
    (fi maxSteps : ℕ) :
    (traceOrbit seed c fi maxSteps).visited.length ≤ maxSteps ∧
    ((∃ k < maxSteps,
        (traceOrbit seed c fi maxSteps).cls = OrbitClass.Escaped k) ∨
      (∃ k < maxSteps,
        (traceOrbit seed c fi maxSteps).cls = OrbitClass.PeriodFound k) ∨
      (traceOrbit seed c fi maxSteps).cls = OrbitClass.Exhausted) := by
  rcases traceOrbit_spec seed c fi maxSteps with
    ⟨k0, hk0, hpre, hstop, hcase⟩ | ⟨hall, heq⟩
  · rcases hcase with ⟨hmatch, heq⟩ | ⟨hnm, hesc, heq⟩
    · refine ⟨?_, Or.inr (Or.inl ⟨k0, hk0, ?_⟩)⟩
      · rw [heq]; simp [visitedUpTo_length]; omega
      · rw [heq]
    · refine ⟨?_, Or.inl ⟨k0, hk0, ?_⟩⟩
      · rw [heq]; simp [visitedUpTo_length]; omega
      · rw [heq]
  · refine ⟨?_, Or.inr (Or.inr ?_)⟩
    · rw [heq]; simp [visitedUpTo_length]
    · rw [heq]

/-- C6: if `traceOrbit` reports `Escaped` at step `k`, the k-th visited
point has magnitude above 2, all earlier visited points have magnitude at
most 2, and no near-recurrence within tolerance occurred at or before step
`k`. -/
theorem traceOrbit_escaped_consistent (seed c : Complex) (fi maxSteps k : ℕ)
    (h : (traceOrbit seed c fi maxSteps).cls = OrbitClass.Escaped k) :
    (traceOrbit seed c fi maxSteps).visited.length = k + 1 ∧
    4 < Complex.normSq
        ((traceOrbit seed c fi maxSteps).visited.getD k ⟨0, 0⟩) ∧
    (∀ i < k, Complex.normSq
        ((traceOrbit seed c fi maxSteps).visited.getD i ⟨0, 0⟩) ≤ 4) ∧
    (∀ i ≤ k, ¬ ∃ j < i, Complex.normSq (Complex.sub
        ((traceOrbit seed c fi maxSteps).visited.getD i ⟨0, 0⟩)
        ((traceOrbit seed c fi maxSteps).visited.getD j ⟨0, 0⟩)) < tolSq) := by
  rcases traceOrbit_spec seed c fi maxSteps with
    ⟨k0, hk0, hpre, hstop, hcase⟩ | ⟨hall, heq⟩
  · rcases hcase with ⟨hmatch, heq⟩ | ⟨hnm, hesc, heq⟩
    · rw [heq] at h
      simp at h
    · rw [heq] at h
      simp at h
      subst h
      have hv : (traceOrbit seed c fi maxSteps).visited
          = visitedUpTo (orbitMap fi c) seed (k0 + 1) := by rw [heq]
      refine ⟨?_, ?_, ?_, ?_⟩
      · rw [hv, visitedUpTo_length]
      · rw [hv, visitedUpTo_getD _ _ (Nat.lt_succ_self k0)]
        exact hesc
      · intro i hi
        rw [hv, visitedUpTo_getD _ _ (show i < k0 + 1 by omega)]
        have hns := hpre i hi
        by_contra hgt
        exact hns (Or.inr (not_le.1 hgt))
      · intro i hi hex
        obtain ⟨j, hj, hlt⟩ := hex
        rw [hv, visitedUpTo_getD _ _ (show i < k0 + 1 by omega),
          visitedUpTo_getD _ _ (show j < k0 + 1 by omega)] at hlt
        rcases Nat.eq_or_lt_of_le hi with heq1 | hlt1
        · subst heq1
          exact hnm ⟨j, hj, hlt⟩
        · exact hpre i hlt1 (Or.inl ⟨j, hj, hlt⟩)
  · rw [heq] at h
    simp at h

/-- Witness for C6: the orbit of seed 1 with constant 1 under formula 1
escapes at step 1 (the iterates are 2 then 5). -/
theorem traceOrbit_escaped_consistent_witness :
    (traceOrbit ⟨1, 0⟩ ⟨1, 0⟩ 0 5).cls = OrbitClass.Escaped 1 ∧
    ((traceOrbit ⟨1, 0⟩ ⟨1, 0⟩ 0 5).visited.length = 1 + 1 ∧
      4 < Complex.normSq
          ((traceOrbit ⟨1, 0⟩ ⟨1, 0⟩ 0 5).visited.getD 1 ⟨0, 0⟩) ∧
      (∀ i < 1, Complex.normSq
          ((traceOrbit ⟨1, 0⟩ ⟨1, 0⟩ 0 5).visited.getD i ⟨0, 0⟩) ≤ 4) ∧
      (∀ i ≤ 1, ¬ ∃ j < i, Complex.normSq (Complex.sub
          ((traceOrbit ⟨1, 0⟩ ⟨1, 0⟩ 0 5).visited.getD i ⟨0, 0⟩)
          ((traceOrbit ⟨1, 0⟩ ⟨1, 0⟩ 0 5).visited.getD j ⟨0, 0⟩)) < tolSq)) :=
  ⟨by norm_num [traceOrbit, orbitAux, orbitMap, formulas, formula1, nearMatch,
      Complex.add, Complex.sub, Complex.normSq, tolSq],
   traceOrbit_escaped_consistent ⟨1, 0⟩ ⟨1, 0⟩ 0 5 1
     (by norm_num [traceOrbit, orbitAux, orbitMap, formulas, formula1,
        nearMatch, Complex.add, Complex.sub, Complex.normSq, tolSq])⟩

/-- C8: every per-cell value of the field produced by `computeField` equals
the cell's escape count, lies in `[0, maxIter]`, and equals `maxIter`
exactly when the cell's orbit magnitude never exceeded 2 within `maxIter`
iterations. -/
theorem computeField_cell_bounds (zoom : ℚ) (offset : Vec2) (jm : Bool)
    (jc : Complex) (fi Wn Hn maxIter px py : ℕ) (hx : px < Wn)
    (hy : py < Hn) :
    ((computeField zoom offset jm jc fi Wn Hn maxIter).getD px []).getD py 0
      = fieldCell zoom offset jm jc fi Wn Hn maxIter px py ∧
    fieldCell zoom offset jm jc fi Wn Hn maxIter px py ≤ maxIter ∧
    (fieldCell zoom offset jm jc fi Wn Hn maxIter px py = maxIter ↔
      ∀ k < maxIter, Complex.normSq
        ((orbitMap fi (cellConst zoom offset jm jc Wn Hn px py))^[k + 1]
          (cellSeed zoom offset jm jc Wn Hn px py)) ≤ 4) :=
  ⟨computeField_getD zoom offset jm jc fi Wn Hn maxIter px py hx hy,
   escapeCount_le _ maxIter _,
   escapeCount_eq_iff _ maxIter _⟩

/-- Witness for C8 on a concrete 2×2 grid. -/
theorem computeField_cell_bounds_witness :
    (0 : ℕ) < 2 ∧ (0 : ℕ) < 2 ∧
    (((computeField 1 ⟨0, 0⟩ false ⟨0, 0⟩ 0 2 2 3).getD 0 []).getD 0 0
        = fieldCell 1 ⟨0, 0⟩ false ⟨0, 0⟩ 0 2 2 3 0 0 ∧
      fieldCell 1 ⟨0, 0⟩ false ⟨0, 0⟩ 0 2 2 3 0 0 ≤ 3 ∧
      (fieldCell 1 ⟨0, 0⟩ false ⟨0, 0⟩ 0 2 2 3 0 0 = 3 ↔
        ∀ k < 3, Complex.normSq
          ((orbitMap 0 (cellConst 1 ⟨0, 0⟩ false ⟨0, 0⟩ 2 2 0 0))^[k + 1]
            (cellSeed 1 ⟨0, 0⟩ false ⟨0, 0⟩ 2 2 0 0)) ≤ 4)) :=
  ⟨by norm_num, by norm_num,
   computeField_cell_bounds 1 ⟨0, 0⟩ false ⟨0, 0⟩ 0 2 2 3 0 0
     (by norm_num) (by norm_num)⟩

/-- C10: the orbit detector's only output is the single loop counter
`mousePeriod` in `[0, maxSteps]`: an escape at step `k` yields `k`, a
recurrence at step `k` also yields `k` (identical outputs), and exhaustion
yields the step bound itself, which in the source is `maxOrbit = 1000` —
so the three terminal classifications cannot be distinguished from the
returned value alone. -/
theorem mousePeriod_single_integer (s1 c1 : Complex) (f1 m1 : ℕ)
    (s2 c2 : Complex) (f2 m2 : ℕ) (s3 c3 : Complex) (f3 m3 : ℕ) (k : ℕ)
    (h1 : (traceOrbit s1 c1 f1 m1).cls = OrbitClass.Escaped k)
    (h2 : (traceOrbit s2 c2 f2 m2).cls = OrbitClass.PeriodFound k)
    (h3 : (traceOrbit s3 c3 f3 m3).cls = OrbitClass.Exhausted) :
    maxOrbit = 1000 ∧
    mousePeriod s1 c1 f1 m1 = k ∧ mousePeriod s2 c2 f2 m2 = k ∧
    mousePeriod s1 c1 f1 m1 = mousePeriod s2 c2 f2 m2 ∧
    mousePeriod s3 c3 f3 m3 = m3 ∧
    mousePeriod s1 c1 f1 m1 ≤ m1 ∧ mousePeriod s2 c2 f2 m2 ≤ m2 ∧
    mousePeriod s3 c3 f3 m3 ≤ m3 := by
  have e1 : mousePeriod s1 c1 f1 m1 = k := by rw [mousePeriod_eq, h1]
  have e2 : mousePeriod s2 c2 f2 m2 = k := by rw [mousePeriod_eq, h2]
  have e3 : mousePeriod s3 c3 f3 m3 = m3 := by rw [mousePeriod_eq, h3]
  exact ⟨rfl, e1, e2, by rw [e1, e2], e3,
    mousePeriod_le s1 c1 f1 m1, mousePeriod_le s2 c2 f2 m2,
    mousePeriod_le s3 c3 f3 m3⟩

/-- Witness for C10: an escape at step 1, a recurrence at step 1, and an
exhausted 2-step orbit, with their concrete `mousePeriod` values. -/
theorem mousePeriod_single_integer_witness :
    (traceOrbit ⟨1, 0⟩ ⟨1, 0⟩ 0 5).cls = OrbitClass.Escaped 1 ∧
    (traceOrbit ⟨0, 0⟩ ⟨0, 0⟩ 0 5).cls = OrbitClass.PeriodFound 1 ∧
    (traceOrbit ⟨1/2, 0⟩ ⟨1/8, 0⟩ 0 2).cls = OrbitClass.Exhausted ∧
    (maxOrbit = 1000 ∧
      mousePeriod ⟨1, 0⟩ ⟨1, 0⟩ 0 5 = 1 ∧ mousePeriod ⟨0, 0⟩ ⟨0, 0⟩ 0 5 = 1 ∧
      mousePeriod ⟨1, 0⟩ ⟨1, 0⟩ 0 5 = mousePeriod ⟨0, 0⟩ ⟨0, 0⟩ 0 5 ∧
      mousePeriod ⟨1/2, 0⟩ ⟨1/8, 0⟩ 0 2 = 2 ∧
      mousePeriod ⟨1, 0⟩ ⟨1, 0⟩ 0 5 ≤ 5 ∧ mousePeriod ⟨0, 0⟩ ⟨0, 0⟩ 0 5 ≤ 5 ∧
      mousePeriod ⟨1/2, 0⟩ ⟨1/8, 0⟩ 0 2 ≤ 2) :=
  ⟨by norm_num [traceOrbit, orbitAux, orbitMap, formulas, formula1, nearMatch,
      Complex.add, Complex.sub, Complex.normSq, tolSq],
   by norm_num [traceOrbit, orbitAux, orbitMap, formulas, formula1, nearMatch,
      Complex.add, Complex.sub, Complex.normSq, tolSq],
   by norm_num [traceOrbit, orbitAux, orbitMap, formulas, formula1, nearMatch,
      Complex.add, Complex.sub, Complex.normSq, tolSq, abs_of_nonneg],
   mousePeriod_single_integer ⟨1, 0⟩ ⟨1, 0⟩ 0 5 ⟨0, 0⟩ ⟨0, 0⟩ 0 5
     ⟨1/2, 0⟩ ⟨1/8, 0⟩ 0 2 1
     (by norm_num [traceOrbit, orbitAux, orbitMap, formulas, formula1,
        nearMatch, Complex.add, Complex.sub, Complex.normSq, tolSq])
     (by norm_num [traceOrbit, orbitAux, orbitMap, formulas, formula1,
        nearMatch, Complex.add, Complex.sub, Complex.normSq, tolSq])
     (by norm_num [traceOrbit, orbitAux, orbitMap, formulas, formula1,
        nearMatch, Complex.add, Complex.sub, Complex.normSq, tolSq,
        abs_of_nonneg])⟩

end Celtic
